import Mathlib

/-!
Verification of the PastePack bundler (`pastepack.py`).

The development shallowly embeds the discovery → filter → bundle pipeline:

* Python `str` values are modelled as `List Char` (a Python string is a
  sequence of code points); Python `bytes` as `List Nat`.
* The filesystem is modelled by the mutual inductives `FSNode`/`FSEntries`:
  a file carries a readability flag (`readable = false` models a file whose
  `open`/`read` raises) and its content bytes; a directory carries its
  ordered listing.  Paths are lists of name segments below the filesystem
  root, so for a POSIX path `/a/b` the segment list is `["a", "b"]`.
* Machine integers: the byte budgets `max_file_bytes`/`max_total_bytes`
  are Python ints and may be negative, so they are modelled as `Int`;
  byte lengths are `Nat` and are coerced where the code compares them.
* All definitions are executable and kernel-computable (structural
  recursion only), so concrete runs can be evaluated by `decide`.

Deliberate, claim-irrelevant simplifications (each noted at its
definition): `mtime` metadata is dropped, `os.path.abspath` joins to the
working directory without collapsing dot segments, exception text in
read-error warnings is dropped, and character lowercasing is ASCII (as in
`Char.toLower`).
-/

namespace PastePack

/-- A Python string, modelled as its sequence of code points. -/
abbrev Str := List Char

/-- A Python `bytes` value, one `Nat` (0..255) per byte. -/
abbrev Bytes := List Nat

/-! ## Basic string helpers -/

/-- Lexicographic (code-point) `≤` on strings, as Python compares `str`. -/
def strLe : Str → Str → Bool
  | [], _ => true
  | _ :: _, [] => false
  | a :: as, b :: bs =>
    if a.toNat < b.toNat then true
    else if b.toNat < a.toNat then false
    else strLe as bs

/-- Models Python `str.lower` (ASCII case folding, per `Char.toLower`). -/
def toLowerStr (s : Str) : Str := s.map Char.toLower

/-- Models Python `str.strip` (drop leading and trailing whitespace). -/
def stripStr (s : Str) : Str :=
  ((s.dropWhile Char.isWhitespace).reverse.dropWhile Char.isWhitespace).reverse

/-- Models Python `str.startswith(".")` on a single name. -/
def startsWithDot : Str → Bool
  | '.' :: _ => true
  | _ => false

/-- Does the string start with a path-root marker `/`? -/
def startsWithSlash : Str → Bool
  | '/' :: _ => true
  | _ => false

/-- Models Python `str.endswith(suffixStr)`. -/
def strEndsWith (s suffixStr : Str) : Bool := decide (suffixStr <:+ s)

/-- Models Python `str.replace(old, new)` for a single-character pattern
(single-character replacement is position-wise, so it is a `map`). -/
def replaceChar (a b : Char) (s : Str) : Str :=
  s.map fun c => if c = a then b else c

/-- Models Python `s.replace("\r\n", "\n")`: leftmost, non-overlapping. -/
def replaceCrlf : Str → Str
  | '\r' :: '\n' :: rest => '\n' :: replaceCrlf rest
  | c :: rest => c :: replaceCrlf rest
  | [] => []

/-- Source `normalise_newlines`:
`s.replace("\r\n", "\n").replace("\r", "\n")`. -/
def normalise_newlines (s : Str) : Str :=
  replaceChar '\r' '\n' (replaceCrlf s)

/-- Decimal rendering of a `Nat` (Python `str(n)` for the template). -/
def natToStr (n : Nat) : Str := (Nat.repr n).data

/-- Decimal rendering of an `Int`. -/
def intToStr : Int → Str
  | .ofNat n => natToStr n
  | .negSucc n => '-' :: natToStr (n + 1)

/-! ## Paths

A resolved absolute path is its list of name segments below the
filesystem root (`Path.parts[1:]` in the source). -/

/-- Models `str(p)` for an absolute path: "/" ++ segments joined by "/". -/
def pathStr (p : List Str) : Str := p.flatMap fun s => '/' :: s

/-- Models `str(rel)` for a relative path: segments joined by "/". -/
def relStr (segs : List Str) : Str := List.intercalate ['/'] segs

/-- Models `Path.name`: the final path segment. -/
def lastName (p : List Str) : Str := p.getLast?.getD []

/-- Models `Path.suffix`: the extension of a bare file name, including the dot;
empty when the only dot is leading or trailing or there is no dot. -/
def pathSuffix (name : Str) : Str :=
  let post := name.reverse.takeWhile fun c => c ≠ '.'
  if post.length + 1 < name.length ∧ post ≠ [] then '.' :: post.reverse else []

/-! ## SHA-256 over raw bytes (the source's `sha256_bytes`) -/

/-- Truncate to a 32-bit word. -/
def w32 (x : Nat) : Nat := x % 4294967296

/-- 32-bit rotate right. -/
def rotr (x n : Nat) : Nat := w32 ((x >>> n) ||| (x <<< (32 - n)))

/-- SHA-256 Σ₀. -/
def bsig0 (x : Nat) : Nat := rotr x 2 ^^^ rotr x 13 ^^^ rotr x 22

/-- SHA-256 Σ₁. -/
def bsig1 (x : Nat) : Nat := rotr x 6 ^^^ rotr x 11 ^^^ rotr x 25

/-- SHA-256 σ₀. -/
def ssig0 (x : Nat) : Nat := rotr x 7 ^^^ rotr x 18 ^^^ (x >>> 3)

/-- SHA-256 σ₁. -/
def ssig1 (x : Nat) : Nat := rotr x 17 ^^^ rotr x 19 ^^^ (x >>> 10)

/-- The SHA-256 round constants (FIPS 180-4, in decimal). -/
def sha256K : List Nat :=
  [1116352408, 1899447441, 3049323471, 3921009573, 961987163,
   1508970993, 2453635748, 2870763221, 3624381080, 310598401,
   607225278, 1426881987, 1925078388, 2162078206, 2614888103,
   3248222580, 3835390401, 4022224774, 264347078, 604807628,
   770255983, 1249150122, 1555081692, 1996064986, 2554220882,
   2821834349, 2952996808, 3210313671, 3336571891, 3584528711,
   113926993, 338241895, 666307205, 773529912, 1294757372,
   1396182291, 1695183700, 1986661051, 2177026350, 2456956037,
   2730485921, 2820302411, 3259730800, 3345764771, 3516065817,
   3600352804, 4094571909, 275423344, 430227734, 506948616,
   659060556, 883997877, 958139571, 1322822218, 1537002063,
   1747873779, 1955562222, 2024104815, 2227730452, 2361852424,
   2428436474, 2756734187, 3204031479, 3329325298]

/-- The SHA-256 initial hash state (FIPS 180-4, in decimal). -/
def sha256H0 : List Nat :=
  [1779033703, 3144134277, 1013904242, 2773480762, 1359893119,
   2600822924, 528734635, 1541459225]

/-- Big-endian byte rendering of `v` in `n` bytes. -/
def bytesBE (n v : Nat) : Bytes :=
  (List.range n).map fun i => (v >>> (8 * (n - 1 - i))) % 256

/-- SHA-256 message padding: `0x80`, zeros to 56 mod 64, 64-bit length. -/
def sha256Pad (msg : Bytes) : Bytes :=
  msg ++ 0x80 :: List.replicate ((55 + 64 - msg.length % 64) % 64) 0
      ++ bytesBE 8 (8 * msg.length)

/-- Read the `i`-th big-endian 32-bit word of a 64-byte block. -/
def word32At (block : Bytes) (i : Nat) : Nat :=
  (block.getD (4 * i) 0) <<< 24 ||| (block.getD (4 * i + 1) 0) <<< 16 |||
  (block.getD (4 * i + 2) 0) <<< 8 ||| block.getD (4 * i + 3) 0

/-- The 64-entry message schedule of one block. -/
def msgSchedule (block : Bytes) : List Nat :=
  let w16 := (List.range 16).map (word32At block)
  (List.range 48).foldl
    (fun w _ =>
      w ++ [w32 (ssig1 (w.getD (w.length - 2) 0) + w.getD (w.length - 7) 0 +
                 ssig0 (w.getD (w.length - 15) 0) + w.getD (w.length - 16) 0)])
    w16

/-- One SHA-256 round on the 8-word working state. -/
def sha256Round (w : List Nat) (st : List Nat) (i : Nat) : List Nat :=
  let a := st.getD 0 0
  let b := st.getD 1 0
  let c := st.getD 2 0
  let d := st.getD 3 0
  let e := st.getD 4 0
  let f := st.getD 5 0
  let g := st.getD 6 0
  let h := st.getD 7 0
  let t1 := w32 (h + bsig1 e + ((e &&& f) ^^^ ((4294967295 ^^^ e) &&& g)) +
                 sha256K.getD i 0 + w.getD i 0)
  let t2 := w32 (bsig0 a + ((a &&& b) ^^^ (a &&& c) ^^^ (b &&& c)))
  [w32 (t1 + t2), a, b, c, w32 (d + t1), e, f, g]

/-- Compress one 64-byte block into the hash state. -/
def sha256Compress (st : List Nat) (block : Bytes) : List Nat :=
  let w := msgSchedule block
  let fin := (List.range 64).foldl (sha256Round w) st
  (st.zip fin).map fun p => w32 (p.1 + p.2)

/-- Split a padded message into 64-byte blocks. -/
def chunks64 (l : Bytes) : List Bytes :=
  (List.range (l.length / 64)).map fun i => (l.drop (64 * i)).take 64

/-- One lowercase hex digit. -/
def hexDigit (n : Nat) : Char :=
  if n < 10 then Char.ofNat (48 + n) else Char.ofNat (87 + n)

/-- Eight lowercase hex digits of a 32-bit word. -/
def hexOfWord (v : Nat) : Str :=
  (List.range 8).map fun i => hexDigit ((v >>> (4 * (7 - i))) % 16)

/-- Source `sha256_bytes`: `hashlib.sha256(b).hexdigest()`. -/
def sha256_bytes (b : Bytes) : Str :=
  ((chunks64 (sha256Pad b)).foldl sha256Compress sha256H0).flatMap hexOfWord

set_option maxRecDepth 10000 in
/-- Validation of the hash model against the FIPS 180 test vector for
"abc". -/
theorem sha256_bytes_abc :
    sha256_bytes [97, 98, 99] =
      "ba7816bf8f01cfea414140de5dae2223b00361a396177a9cb410ff61f20015ad".data := by
  decide

/-! ## UTF-8 decoding with replacement

Models Python `bytes.decode("utf-8", errors="replace")`: each maximal
invalid subsequence is replaced by one U+FFFD per rejected lead byte /
lone continuation byte, valid prefixes of a truncated sequence are
consumed together with their lead (CPython's "substitution of maximal
subparts").  Decoding is total: no input fails. -/

/-- The replacement character U+FFFD. -/
def replChar : Char := Char.ofNat 0xfffd

/-- Is `b` a UTF-8 continuation byte? -/
def isCont (b : Nat) : Bool := 0x80 ≤ b && b ≤ 0xbf

/-- Is `b` a valid 2-byte lead? -/
def lead2 (b : Nat) : Bool := 0xc2 ≤ b && b ≤ 0xdf

/-- Is `b` a 3-byte lead? -/
def lead3 (b : Nat) : Bool := 0xe0 ≤ b && b ≤ 0xef

/-- Is `b` a 4-byte lead? -/
def lead4 (b : Nat) : Bool := 0xf0 ≤ b && b ≤ 0xf4

/-- Valid second byte after 3-byte lead `b` (excludes overlongs and
surrogates). -/
def cont3a (b b2 : Nat) : Bool :=
  if b = 0xe0 then 0xa0 ≤ b2 && b2 ≤ 0xbf
  else if b = 0xed then 0x80 ≤ b2 && b2 ≤ 0x9f
  else isCont b2

/-- Valid second byte after 4-byte lead `b` (excludes overlongs and
values above U+10FFFF). -/
def cont4a (b b2 : Nat) : Bool :=
  if b = 0xf0 then 0x90 ≤ b2 && b2 ≤ 0xbf
  else if b = 0xf4 then 0x80 ≤ b2 && b2 ≤ 0x8f
  else isCont b2

/-- Assemble a 2-byte scalar. -/
def char2 (b b2 : Nat) : Char := Char.ofNat ((b - 0xc0) * 64 + (b2 - 0x80))

/-- Assemble a 3-byte scalar. -/
def char3 (b b2 b3 : Nat) : Char :=
  Char.ofNat ((b - 0xe0) * 4096 + (b2 - 0x80) * 64 + (b3 - 0x80))

/-- Assemble a 4-byte scalar. -/
def char4 (b b2 b3 b4 : Nat) : Char :=
  Char.ofNat ((b - 0xf0) * 262144 + (b2 - 0x80) * 4096 + (b3 - 0x80) * 64 +
              (b4 - 0x80))

/-- Total UTF-8 decoder with U+FFFD replacement (see section comment). -/
def utf8Decode : Bytes → Str
  | [] => []
  | [b] => if b < 0x80 then [Char.ofNat b] else [replChar]
  | [b, b2] =>
    if b < 0x80 then Char.ofNat b :: utf8Decode [b2]
    else if lead2 b then
      (if isCont b2 then [char2 b b2] else replChar :: utf8Decode [b2])
    else if lead3 b then
      (if cont3a b b2 then [replChar] else replChar :: utf8Decode [b2])
    else if lead4 b then
      (if cont4a b b2 then [replChar] else replChar :: utf8Decode [b2])
    else replChar :: utf8Decode [b2]
  | [b, b2, b3] =>
    if b < 0x80 then Char.ofNat b :: utf8Decode [b2, b3]
    else if lead2 b then
      (if isCont b2 then char2 b b2 :: utf8Decode [b3]
       else replChar :: utf8Decode [b2, b3])
    else if lead3 b then
      (if cont3a b b2 then
        (if isCont b3 then [char3 b b2 b3] else replChar :: utf8Decode [b3])
       else replChar :: utf8Decode [b2, b3])
    else if lead4 b then
      (if cont4a b b2 then
        (if isCont b3 then [replChar] else replChar :: utf8Decode [b3])
       else replChar :: utf8Decode [b2, b3])
    else replChar :: utf8Decode [b2, b3]
  | b :: b2 :: b3 :: b4 :: rest =>
    if b < 0x80 then Char.ofNat b :: utf8Decode (b2 :: b3 :: b4 :: rest)
    else if lead2 b then
      (if isCont b2 then char2 b b2 :: utf8Decode (b3 :: b4 :: rest)
       else replChar :: utf8Decode (b2 :: b3 :: b4 :: rest))
    else if lead3 b then
      (if cont3a b b2 then
        (if isCont b3 then char3 b b2 b3 :: utf8Decode (b4 :: rest)
         else replChar :: utf8Decode (b3 :: b4 :: rest))
       else replChar :: utf8Decode (b2 :: b3 :: b4 :: rest))
    else if lead4 b then
      (if cont4a b b2 then
        (if isCont b3 then
          (if isCont b4 then char4 b b2 b3 b4 :: utf8Decode rest
           else replChar :: utf8Decode (b4 :: rest))
         else replChar :: utf8Decode (b3 :: b4 :: rest))
       else replChar :: utf8Decode (b2 :: b3 :: b4 :: rest))
    else replChar :: utf8Decode (b2 :: b3 :: b4 :: rest)

/-- Validation: ASCII, a 2-byte sequence, a lone continuation byte, and a
truncated sequence decode as CPython does. -/
theorem utf8Decode_samples :
    utf8Decode [104, 105] = "hi".data ∧
    utf8Decode [0xc3, 0xa9] = "é".data ∧
    utf8Decode [0xff, 0x41] = [replChar, 'A'] ∧
    utf8Decode [0xe2, 0x82] = [replChar] := by
  decide

/-! ## Glob matching (the source's `fnmatch.fnmatch`)

Implemented as a direct matcher for `*`, `?`, `[...]` (with `!` negation,
leading-`]` literal, and `a-z` ranges; an unterminated `[` is a literal).
The recursion is fuelled by `pattern.length + name.length + 1`; every
step shortens pattern-plus-name, so the fuel never runs out on the
initial call. -/

/-- Scan a bracket class body to the closing `]`; `none` if unterminated. -/
def bracketScan : Str → Option (Str × Str)
  | [] => none
  | ']' :: rest => some ([], rest)
  | c :: rest =>
    match bracketScan rest with
    | some (cls, r) => some (c :: cls, r)
    | none => none

/-- Split the characters following `[` into (negated, class, rest). -/
def bracketSplit (ps : Str) : Option (Bool × Str × Str) :=
  match ps with
  | '!' :: ']' :: rest2 =>
    (match bracketScan rest2 with
     | some (cls, r) => some (true, ']' :: cls, r)
     | none => none)
  | '!' :: rest =>
    (match bracketScan rest with
     | some (cls, r) => some (true, cls, r)
     | none => none)
  | ']' :: rest2 =>
    (match bracketScan rest2 with
     | some (cls, r) => some (false, ']' :: cls, r)
     | none => none)
  | _ =>
    (match bracketScan ps with
     | some (cls, r) => some (false, cls, r)
     | none => none)

/-- Membership of a character in a bracket class with `a-z` ranges. -/
def charInClass : Str → Char → Bool
  | a :: '-' :: b :: rest, c =>
    (a.toNat ≤ c.toNat && c.toNat ≤ b.toNat) || charInClass rest c
  | a :: rest, c => (a == c) || charInClass rest c
  | [], _ => false

/-- Fuelled worker for `fnmatch` (arguments: fuel, pattern, name). -/
def fnmatchGo : Nat → Str → Str → Bool
  | _, [], [] => true
  | _, [], _ :: _ => false
  | 0, _ :: _, _ => false
  | fuel + 1, '*' :: ps, s =>
    fnmatchGo fuel ps s ||
      (match s with
       | [] => false
       | _ :: cs => fnmatchGo fuel ('*' :: ps) cs)
  | fuel + 1, '?' :: ps, s =>
    (match s with
     | [] => false
     | _ :: cs => fnmatchGo fuel ps cs)
  | fuel + 1, '[' :: ps, s =>
    (match bracketSplit ps with
     | some (neg, cls, rest) =>
       (match s with
        | [] => false
        | c :: cs =>
          (if neg then !charInClass cls c else charInClass cls c) &&
            fnmatchGo fuel rest cs)
     | none =>
       (match s with
        | [] => false
        | c :: cs => (c == '[') && fnmatchGo fuel ps cs))
  | fuel + 1, p :: ps, s =>
    (match s with
     | [] => false
     | c :: cs => (p == c) && fnmatchGo fuel ps cs)

/-- Models `fnmatch.fnmatch(name, pat)` (POSIX: `normcase` is identity). -/
def fnmatch (name pat : Str) : Bool :=
  fnmatchGo (pat.length + name.length + 1) pat name

/-- Validation of the glob matcher on typical exclusion patterns. -/
theorem fnmatch_samples :
    fnmatch "x.pyc".data "*.pyc".data = true ∧
    fnmatch "x.py".data "*.pyc".data = false ∧
    fnmatch "node_modules".data "node_modules".data = true ∧
    fnmatch "a1".data "a[0-9]".data = true ∧
    fnmatch "ab".data "a[!0-9]".data = true ∧
    fnmatch "ab".data "a?".data = true := by
  decide

/-! ## Exclusion matching (the source's `matches_any`) -/

/-- Models `os.path.abspath`: absolute strings are kept, relative ones are
joined to the working directory `cwd` (dot-segment normalisation, which
the source never relies on, is omitted). -/
def abspath (cwd s : Str) : Str :=
  if startsWithSlash s then s else cwd ++ '/' :: s

/-- One iteration of the `matches_any` loop: a pattern with a leading `/`
is an absolute-prefix pattern, any other pattern is a glob matched
against the candidate string. -/
def matchOne (cwd name pat : Str) : Bool :=
  if startsWithSlash pat then (abspath cwd pat).isPrefixOf (abspath cwd name)
  else fnmatch name pat

/-- Source `matches_any(name, patterns)`: the loop returns `True` on the
first matching pattern, i.e. an `any` over the pattern list.  `cwd` is
the process working directory used by `os.path.abspath`. -/
def matches_any (cwd name : Str) (patterns : List Str) : Bool :=
  patterns.any fun pat => matchOne cwd name pat

/-! ## Filesystem model and the classifier -/

mutual
/-- A filesystem entry: a regular file (with a readability flag — `false`
models a file whose `open`/`read` raises — and content bytes) or a
directory with its ordered listing. -/
inductive FSNode where
  | file (readable : Bool) (content : Bytes)
  | dir (entries : FSEntries)

/-- An ordered directory listing: name/node pairs. -/
inductive FSEntries where
  | nil
  | cons (name : Str) (node : FSNode) (rest : FSEntries)
end

/-- Look a name up in a directory listing. -/
def lookupFS (name : Str) : FSEntries → Option FSNode
  | .nil => none
  | .cons n node rest => if n = name then some node else lookupFS name rest

/-- Resolve a path (list of segments below the root) in the filesystem. -/
def resolve : FSNode → List Str → Option FSNode
  | node, [] => some node
  | .file _ _, _ :: _ => none
  | .dir es, s :: rest =>
    match lookupFS s es with
    | some child => resolve child rest
    | none => none

/-- The outcome of opening and reading a node: `none` when the node is
unreadable or a directory (both raise in Python). -/
def readNode : FSNode → Option Bytes
  | .file true content => some content
  | .file false _ => none
  | .dir _ => none

/-- Models `Path.read_bytes()` or an `open` of the file at `p`: `none` models the
raised exception. -/
def readFile (fs : FSNode) (p : List Str) : Option Bytes :=
  match resolve fs p with
  | some node => readNode node
  | none => none

/-- Source `is_text_file(p, sample_size)`: `chunk` is the outcome of
opening `p` and reading (the classifier reads at most `sample_size`
bytes, modelled by `take`); `none` (open/read raised) yields `False` via
the `except` branch, otherwise the sample must contain no NUL byte. -/
def is_text_file (chunk : Option Bytes) (sample_size : Nat) : Bool :=
  match chunk with
  | none => false
  | some content => !(content.take sample_size).contains 0

/-! ## The traverser (the source's `walk_inputs`) -/

/-- One discovered candidate (source dataclass `FileEntry`; the `mtime`
field is wall-clock metadata no claim depends on and is omitted).
Paths are segment lists; `rel` is relative to `root`. -/
structure FileEntry where
  root : List Str
  path : List Str
  rel : List Str
  size : Nat
deriving DecidableEq

/-- The per-file checks inside the `os.walk` loop: hidden-name rule,
exclusion patterns against bare name and full path, then the classifier.
`cur` is the directory containing `f`; `root` is the input directory. -/
def fileCheck (cwd : Str) (ex_patterns : List Str) (include_hidden : Bool)
    (root cur : List Str) (f : Str) (nd : FSNode) : List FileEntry :=
  match nd with
  | .file _ content =>
    if !include_hidden && startsWithDot f then []
    else if matches_any cwd f ex_patterns ||
            matches_any cwd (pathStr (cur ++ [f])) ex_patterns then []
    else if is_text_file (readNode nd) 1024 then
      [FileEntry.mk root (cur ++ [f]) ((cur ++ [f]).drop root.length)
        content.length]
    else []
  | .dir _ => []

/-- The subdirectory pruning condition of the `os.walk` loop. -/
def pruneDir (cwd : Str) (ex_patterns : List Str) (include_hidden : Bool)
    (cur : List Str) (d : Str) : Bool :=
  (!include_hidden && startsWithDot d) || matches_any cwd d ex_patterns ||
    matches_any cwd (pathStr (cur ++ [d])) ex_patterns

/-- Process the files of one directory listing, in listing order. -/
def walkFiles (cwd : Str) (ex_patterns : List Str) (include_hidden : Bool)
    (root cur : List Str) : FSEntries → List FileEntry
  | .nil => []
  | .cons f nd rest =>
    fileCheck cwd ex_patterns include_hidden root cur f nd ++
      walkFiles cwd ex_patterns include_hidden root cur rest

mutual
/-- Models `os.walk` (top-down) over one node: the current directory's files
first, then the non-pruned subdirectories in listing order.  The node
itself is never tested against the hidden rule or the patterns. -/
def walkNode (cwd : Str) (ex_patterns : List Str) (include_hidden : Bool)
    (root cur : List Str) : FSNode → List FileEntry
  | .file _ _ => []
  | .dir es =>
    walkFiles cwd ex_patterns include_hidden root cur es ++
      walkDirs cwd ex_patterns include_hidden root cur es

/-- Descend into the subdirectories of a listing, skipping pruned ones. -/
def walkDirs (cwd : Str) (ex_patterns : List Str) (include_hidden : Bool)
    (root cur : List Str) : FSEntries → List FileEntry
  | .nil => []
  | .cons d nd rest =>
    (match nd with
     | .dir _ =>
       if pruneDir cwd ex_patterns include_hidden cur d then []
       else walkNode cwd ex_patterns include_hidden root (cur ++ [d]) nd
     | .file _ _ => []) ++
      walkDirs cwd ex_patterns include_hidden root cur rest
end

/-- Source `walk_inputs(paths, ex_patterns, include_hidden)`.  Input paths
are already resolved (`p.resolve()` is the identity in this model, which
only holds absolute, symlink-free paths).  A regular-file input is
subject to the hidden-segment rule (`p.parts[1:]`), the matcher and the
classifier; a directory input is walked; a missing path yields nothing. -/
def walk_inputs (cwd : Str) (fs : FSNode) (paths : List (List Str))
    (ex_patterns : List Str) (include_hidden : Bool) : List FileEntry :=
  paths.flatMap fun p =>
    match resolve fs p with
    | some (.file readable content) =>
      if !include_hidden && p.any (fun part => startsWithDot part) then []
      else if matches_any cwd (lastName p) ex_patterns ||
              matches_any cwd (pathStr p) ex_patterns then []
      else if is_text_file (readNode (.file readable content)) 1024 then
        [FileEntry.mk p.dropLast p [lastName p] content.length]
      else []
    | some (.dir es) => walkNode cwd ex_patterns include_hidden p p (.dir es)
    | none => []

/-! ## Extension filtering (the source's `filter_by_ext`) -/

/-- Source `filter_by_ext(entries, allowed_exts)`: `none`/`[]`/`["*"]`
pass everything through; otherwise keep entries whose lower-cased
`Path.suffix` is in the lower-cased, stripped allow-set. -/
def filter_by_ext (entries : List FileEntry)
    (allowed_exts : Option (List Str)) : List FileEntry :=
  match allowed_exts with
  | none => entries
  | some l =>
    if l = [] ∨ l = [['*']] then entries
    else
      let allowed := l.map fun e => stripStr (toLowerStr e)
      entries.filter fun fe =>
        allowed.contains (toLowerStr (pathSuffix (lastName fe.path)))

/-! ## The bundler (the source's `bundle`) -/

/-- The warnings `bundle` can append, with the data each message carries
(the exception text of a read error is host-dependent and dropped). -/
inductive Warning where
  | readError (path : Str)
  | tooBig (rel : Str) (len : Nat) (limit : Int)
  | stopped (rel : Str) (limit : Int)
deriving DecidableEq

/-- Render a warning as its Python message. -/
def renderWarning : Warning → Str
  | .readError p => "Skipping ".data ++ p ++ " — read error".data
  | .tooBig rel len limit =>
    "Skipping ".data ++ rel ++ " — ".data ++ natToStr len ++
      " bytes exceeds --max-file-bytes=".data ++ intToStr limit
  | .stopped rel limit =>
    "Stopped before ".data ++ rel ++
      " — adding it would exceed --max-total-bytes=".data ++ intToStr limit

/-- The language-tag table `LANG_BY_EXT`. -/
def LANG_BY_EXT : List (Str × Str) :=
  [(".py".data, "python".data), (".pyi".data, "python".data),
   (".toml".data, "toml".data), (".ini".data, "ini".data),
   (".json".data, "json".data), (".yml".data, "yaml".data),
   (".yaml".data, "yaml".data), (".js".data, "javascript".data),
   (".mjs".data, "javascript".data), (".cjs".data, "javascript".data),
   (".ts".data, "ts".data), (".tsx".data, "tsx".data),
   (".jsx".data, "jsx".data), (".html".data, "html".data),
   (".htm".data, "html".data), (".css".data, "css".data),
   (".scss".data, "scss".data), (".less".data, "less".data),
   (".md".data, "md".data), (".txt".data, "text".data),
   (".csv".data, "csv".data), (".xml".data, "xml".data),
   (".java".data, "java".data), (".kt".data, "kotlin".data),
   (".kts".data, "kotlin".data), (".scala".data, "scala".data),
   (".go".data, "go".data), (".rs".data, "rust".data),
   (".c".data, "c".data), (".h".data, "c".data),
   (".cpp".data, "cpp".data), (".hpp".data, "cpp".data),
   (".sql".data, "sql".data), (".sh".data, "bash".data),
   (".bash".data, "bash".data), (".zsh".data, "zsh".data),
   (".ps1".data, "powershell".data), (".bat".data, "bat".data),
   (".env".data, "bash".data)]

/-- Source `infer_lang(ext)`: `LANG_BY_EXT.get(ext.lower(), "")`. -/
def infer_lang (ext : Str) : Str :=
  (LANG_BY_EXT.lookup (toLowerStr ext)).getD []

/-- The default exclusion patterns `DEFAULT_EXCLUDES`. -/
def DEFAULT_EXCLUDES : List Str :=
  [".git".data, "node_modules".data, "dist".data, "build".data, "out".data,
   "coverage".data, ".venv".data, "venv".data, "__pycache__".data,
   ".DS_Store".data, "*.pyc".data, "*.pyo".data, "*.class".data,
   "pastepack.py".data]

/-- The default extension allow-list `DEFAULT_EXTS`. -/
def DEFAULT_EXTS : List Str :=
  [".html".data, ".htm".data, ".css".data, ".scss".data, ".sass".data,
   ".less".data, ".js".data, ".jsx".data, ".ts".data, ".tsx".data,
   ".json".data, ".mjs".data, ".cjs".data, ".py".data, ".pyi".data,
   ".toml".data, ".ini".data, ".cfg".data, ".yml".data, ".yaml".data,
   ".java".data, ".kt".data, ".kts".data, ".scala".data, ".go".data,
   ".rs".data, ".c".data, ".h".data, ".cpp".data, ".hpp".data,
   ".sh".data, ".bash".data, ".zsh".data, ".ps1".data, ".bat".data,
   ".md".data, ".txt".data, ".csv".data, ".xml".data, ".env".data,
   ".sql".data]

/-- One rendered file block: the header fields the source writes (`mtime`
omitted, see `FileEntry`) and the decoded, newline-normalised body. -/
structure Block where
  path : Str
  abspath : Str
  size : Nat
  sha256 : Str
  lang : Str
  text : Str
deriving DecidableEq

/-- Build the block for one included file from its raw bytes, exactly as
the loop body of `bundle` does: the digest and size come from the raw
bytes, the body from the decoded and normalised text. -/
def mkBlock (fe : FileEntry) (raw : Bytes) : Block :=
  Block.mk (replaceChar '\\' '/' (relStr fe.rel)) (pathStr fe.path)
    raw.length (sha256_bytes raw)
    (infer_lang (pathSuffix (lastName fe.path)))
    (normalise_newlines (utf8Decode raw))

/-- The sort key of `bundle`: `str(e.rel).lower()`. -/
def entKey (fe : FileEntry) : Str := toLowerStr (relStr fe.rel)

/-- The sort relation of `bundle`: keys compared as Python strings. -/
def entRel (a b : FileEntry) : Prop := strLe (entKey a) (entKey b) = true

instance : DecidableRel entRel := fun a b =>
  inferInstanceAs (Decidable (_ = true))

/-- Models `sorted(entries, key=lambda e: (str(e.rel).lower()))` — a
stable sort by `entKey`. -/
def sortEntries (entries : List FileEntry) : List FileEntry :=
  List.insertionSort entRel entries

/-- The mutable state of `bundle`'s loop, as the loop's contribution:
blocks written, warnings appended, final `total`, files `included`. -/
structure BundleAcc where
  blocks : List Block
  warnings : List Warning
  total : Nat
  included : Nat
deriving DecidableEq

/-- The per-candidate loop of `bundle`, over the already-sorted entries:
read (a failure warns and continues), per-file budget (a violation warns
and continues), total budget (a violation warns and `break`s), else
render the block and add the raw length to the running total. -/
def bundleLoop (fs : FSNode) (max_file_bytes max_total_bytes : Int) :
    List FileEntry → Nat → BundleAcc
  | [], total => BundleAcc.mk [] [] total 0
  | fe :: rest, total =>
    match readFile fs fe.path with
    | none =>
      let r := bundleLoop fs max_file_bytes max_total_bytes rest total
      BundleAcc.mk r.blocks (.readError (pathStr fe.path) :: r.warnings)
        r.total r.included
    | some raw =>
      if max_file_bytes > 0 ∧ (raw.length : Int) > max_file_bytes then
        let r := bundleLoop fs max_file_bytes max_total_bytes rest total
        BundleAcc.mk r.blocks
          (.tooBig (relStr fe.rel) raw.length max_file_bytes :: r.warnings)
          r.total r.included
      else if max_total_bytes > 0 ∧
          (total : Int) + raw.length > max_total_bytes then
        BundleAcc.mk [] [.stopped (relStr fe.rel) max_total_bytes] total 0
      else
        let r := bundleLoop fs max_file_bytes max_total_bytes rest
          (total + raw.length)
        BundleAcc.mk (mkBlock fe raw :: r.blocks) r.warnings r.total
          (r.included + 1)

/-- Models `sorted(set(...))`: the distinct strings in ascending order. -/
def sortedUniqueStrs (l : List Str) : List Str :=
  (List.insertionSort (fun a b => strLe a b = true) l).dedup

/-- The structured result of `bundle`: the rendered blocks in emission
order, the warnings, and the preamble data (`included`, `total`, the
deduplicated sorted roots). -/
structure BundleOut where
  blocks : List Block
  warnings : List Warning
  totalBytes : Nat
  includedCount : Nat
  roots : List Str
deriving DecidableEq

/-- Source `bundle(entries, max_file_bytes, max_total_bytes)`: sort the
candidates case-insensitively by relative path, run the loop from a zero
total, and assemble the preamble data from the final counters. -/
def bundle (fs : FSNode) (entries : List FileEntry)
    (max_file_bytes max_total_bytes : Int) : BundleOut :=
  let sorted := sortEntries entries
  let acc := bundleLoop fs max_file_bytes max_total_bytes sorted 0
  BundleOut.mk acc.blocks acc.warnings acc.total acc.included
    (sortedUniqueStrs (sorted.map fun e => pathStr e.root))

/-! ## Rendering (the exact artifact text) -/

/-- The 78-character separator line. -/
def HEADER_LINE : Str := List.replicate 78 '='

/-- Source `build_header` (without the omitted `mtime` field): the
`<<<FILE ...>>>` metadata line. -/
def build_header (blk : Block) : Str :=
  "<<<FILE path=\"".data ++ blk.path ++ "\" abspath=\"".data ++ blk.abspath ++
    "\" size=".data ++ natToStr blk.size ++ " sha256=\"".data ++ blk.sha256 ++
    "\" lang=\"".data ++ blk.lang ++ "\">>>\n".data

/-- The body as written between the fences: the text, plus a newline when
the text does not already end with one. -/
def emittedBody (text : Str) : Str :=
  text ++ (if strEndsWith text ['\n'] then [] else ['\n'])

/-- One block as written by the loop body of `bundle`. -/
def renderBlock (blk : Block) : Str :=
  HEADER_LINE ++ "\n".data ++ build_header blk ++ "```".data ++ blk.lang ++
    "\n".data ++ emittedBody blk.text ++ "```\n<<<END FILE>>>\n".data ++
    HEADER_LINE ++ "\n\n".data

/-- The `INTRO_TEMPLATE` preamble; `generated_iso` is the wall-clock
timestamp, a parameter of the model. -/
def renderPreamble (generated_iso : Str) (out : BundleOut) : Str :=
  "PASTE‑PACK BUNDLE — multi‑file paste for ChatGPT\nGenerated: ".data ++
    generated_iso ++ "\nPaths: ".data ++ List.intercalate ", ".data out.roots ++
    "\nFiles included: ".data ++ natToStr out.includedCount ++
    "; Total bytes: ".data ++ natToStr out.totalBytes ++
    "\nNotes: Each file starts with a <<<FILE ...>>> header and ends with <<<END FILE>>>.\nPlease treat each file separately when reviewing.\n".data

/-- Models `intro` plus newline plus `out.getvalue()`: the full artifact
text. -/
def renderBundle (generated_iso : Str) (out : BundleOut) : Str :=
  renderPreamble generated_iso out ++ "\n".data ++
    out.blocks.flatMap renderBlock

/-! ## The pipeline (`main` without CLI/clipboard glue) -/

/-- Lines 322–331 of the source: discover, filter by extension, bundle. -/
def pipeline (cwd : Str) (fs : FSNode) (paths : List (List Str))
    (ex_patterns : List Str) (include_hidden : Bool)
    (allowed_exts : Option (List Str))
    (max_file_bytes max_total_bytes : Int) : BundleOut :=
  bundle fs
    (filter_by_ext (walk_inputs cwd fs paths ex_patterns include_hidden)
      allowed_exts)
    max_file_bytes max_total_bytes

/-! ## Order properties of the sort key -/

theorem strLe_trans : ∀ (a b c : Str), strLe a b = true → strLe b c = true →
    strLe a c = true := by
  intro a
  induction a with
  | nil => intro b c _ _; simp [strLe]
  | cons x xs ih =>
    intro b c h1 h2
    cases b with
    | nil => simp [strLe] at h1
    | cons y ys =>
      cases c with
      | nil => simp [strLe] at h2
      | cons z zs =>
        simp only [strLe] at h1 h2 ⊢
        split_ifs at h1 h2 ⊢ <;> first | rfl | omega | exact ih ys zs h1 h2

theorem strLe_total : ∀ (a b : Str), strLe a b = true ∨ strLe b a = true := by
  intro a
  induction a with
  | nil => intro b; left; simp [strLe]
  | cons x xs ih =>
    intro b
    cases b with
    | nil => right; simp [strLe]
    | cons y ys =>
      simp only [strLe]
      split_ifs <;> first | (left; rfl) | (right; rfl) | omega | exact ih ys

instance : IsTrans FileEntry entRel :=
  ⟨fun a b c h1 h2 => strLe_trans _ _ _ h1 h2⟩

instance : IsTotal FileEntry entRel :=
  ⟨fun a b => strLe_total (entKey a) (entKey b)⟩

/-! ## Small string lemmas -/

theorem replaceChar_of_not_mem {a : Char} (b : Char) {s : Str} (h : a ∉ s) :
    replaceChar a b s = s := by
  induction s with
  | nil => rfl
  | cons c cs ih =>
    simp only [List.mem_cons, not_or] at h
    simp [replaceChar] at ih ⊢
    exact ⟨fun hc => absurd hc.symm h.1, ih h.2⟩

theorem cr_not_mem_normalise (s : Str) : '\r' ∉ normalise_newlines s := by
  intro hmem
  rw [normalise_newlines, replaceChar] at hmem
  obtain ⟨c, _, hc⟩ := List.mem_map.mp hmem
  by_cases h : c = '\r' <;> simp [h] at hc

theorem emittedBody_endsWith (t : Str) :
    strEndsWith (emittedBody t) ['\n'] = true := by
  rw [emittedBody]
  cases h : strEndsWith t ['\n'] with
  | true => simp [h]
  | false =>
    simp only [h, if_neg Bool.false_ne_true]
    exact decide_eq_true (List.suffix_append t ['\n'])

/-! ## Invariants of the bundling loop -/

theorem bundleLoop_total_eq (fs : FSNode) (maxF maxT : Int) :
    ∀ (l : List FileEntry) (t : Nat),
      (bundleLoop fs maxF maxT l t).total =
        t + ((bundleLoop fs maxF maxT l t).blocks.map Block.size).sum := by
  intro l
  induction l with
  | nil => intro t; simp [bundleLoop]
  | cons fe rest ih =>
    intro t
    simp only [bundleLoop]
    cases hr : readFile fs fe.path with
    | none => simpa using ih t
    | some raw =>
      by_cases h1 : maxF > 0 ∧ (raw.length : Int) > maxF
      · simpa [h1] using ih t
      · by_cases h2 : maxT > 0 ∧ (t : Int) + raw.length > maxT
        · simp [h1, h2]
        · have := ih (t + raw.length)
          simp only [h1, h2, if_false, if_neg, List.map_cons, List.sum_cons,
            mkBlock] at *
          omega

theorem bundleLoop_total_le (fs : FSNode) (maxF maxT : Int) (hT : 0 < maxT) :
    ∀ (l : List FileEntry) (t : Nat), (t : Int) ≤ maxT →
      ((bundleLoop fs maxF maxT l t).total : Int) ≤ maxT := by
  intro l
  induction l with
  | nil => intro t ht; simpa [bundleLoop] using ht
  | cons fe rest ih =>
    intro t ht
    simp only [bundleLoop]
    cases hr : readFile fs fe.path with
    | none => simpa using ih t ht
    | some raw =>
      by_cases h1 : maxF > 0 ∧ (raw.length : Int) > maxF
      · simpa [h1] using ih t ht
      · by_cases h2 : maxT > 0 ∧ (t : Int) + raw.length > maxT
        · simpa [h1, h2] using ht
        · have hle : ((t + raw.length : Nat) : Int) ≤ maxT := by push_cast; omega
          simpa [h1, h2] using ih (t + raw.length) hle

theorem bundleLoop_no_stop (fs : FSNode) (maxF maxT : Int) (hT : maxT ≤ 0) :
    ∀ (l : List FileEntry) (t : Nat) (r : Str) (lim : Int),
      Warning.stopped r lim ∉ (bundleLoop fs maxF maxT l t).warnings := by
  intro l
  induction l with
  | nil => intro t r lim; simp [bundleLoop]
  | cons fe rest ih =>
    intro t r lim
    simp only [bundleLoop]
    cases hr : readFile fs fe.path with
    | none => simpa using ih t r lim
    | some raw =>
      by_cases h1 : maxF > 0 ∧ (raw.length : Int) > maxF
      · simpa [h1] using ih t r lim
      · by_cases h2 : maxT > 0 ∧ (t : Int) + raw.length > maxT
        · omega
        · simpa [h1, h2] using ih (t + raw.length) r lim

theorem bundleLoop_blocks_src (fs : FSNode) (maxF maxT : Int) :
    ∀ (l : List FileEntry) (t : Nat) (blk : Block),
      blk ∈ (bundleLoop fs maxF maxT l t).blocks →
      ∃ fe ∈ l, ∃ raw, readFile fs fe.path = some raw ∧ blk = mkBlock fe raw := by
  intro l
  induction l with
  | nil => intro t blk h; simp [bundleLoop] at h
  | cons fe rest ih =>
    intro t blk h
    simp only [bundleLoop] at h
    cases hr : readFile fs fe.path with
    | none =>
      rw [hr] at h
      obtain ⟨fe', hfe', hrest⟩ := ih t blk (by simpa using h)
      exact ⟨fe', List.mem_cons_of_mem _ hfe', hrest⟩
    | some raw =>
      rw [hr] at h
      by_cases h1 : maxF > 0 ∧ (raw.length : Int) > maxF
      · simp only [h1, if_true, if_pos] at h
        obtain ⟨fe', hfe', hrest⟩ := ih t blk (by simpa using h)
        exact ⟨fe', List.mem_cons_of_mem _ hfe', hrest⟩
      · by_cases h2 : maxT > 0 ∧ (t : Int) + raw.length > maxT
        · simp [h1, h2] at h
        · simp only [h1, h2, if_false, if_neg] at h
          simp only [List.mem_cons] at h
          rcases h with h | h
          · exact ⟨fe, List.mem_cons_self _ _, raw, hr, by simpa using h⟩
          · obtain ⟨fe', hfe', hrest⟩ := ih (t + raw.length) blk (by simpa using h)
            exact ⟨fe', List.mem_cons_of_mem _ hfe', hrest⟩

/-- The ordering relation on emitted header paths. -/
def pathOrd (a b : Str) : Prop := strLe (toLowerStr a) (toLowerStr b) = true

theorem bundleLoop_pairwise (fs : FSNode) (maxF maxT : Int) :
    ∀ (l : List FileEntry) (t : Nat), l.Pairwise entRel →
      (∀ fe ∈ l, ('\\' : Char) ∉ relStr fe.rel) →
      ((bundleLoop fs maxF maxT l t).blocks.map Block.path).Pairwise pathOrd := by
  intro l
  induction l with
  | nil => intro t _ _; simp [bundleLoop]
  | cons fe rest ih =>
    intro t hp hb
    have hphead := (List.pairwise_cons.mp hp).1
    have hptail := (List.pairwise_cons.mp hp).2
    have hbhead := hb fe (List.mem_cons_self _ _)
    have hbtail : ∀ fe' ∈ rest, ('\\' : Char) ∉ relStr fe'.rel :=
      fun fe' h' => hb fe' (List.mem_cons_of_mem _ h')
    simp only [bundleLoop]
    cases hr : readFile fs fe.path with
    | none => simpa using ih t hptail hbtail
    | some raw =>
      by_cases h1 : maxF > 0 ∧ (raw.length : Int) > maxF
      · simpa [h1] using ih t hptail hbtail
      · by_cases h2 : maxT > 0 ∧ (t : Int) + raw.length > maxT
        · simp [h1, h2]
        · simp only [h1, h2, if_false, if_neg, List.map_cons]
          refine List.pairwise_cons.mpr ⟨?_, ih (t + raw.length) hptail hbtail⟩
          intro q hq
          obtain ⟨blk, hblk, hq⟩ := List.mem_map.mp hq
          obtain ⟨fe', hfe', raw', _, hblkeq⟩ :=
            bundleLoop_blocks_src fs maxF maxT rest (t + raw.length) blk hblk
          have h1p : (mkBlock fe raw).path = relStr fe.rel := by
            simp [mkBlock, replaceChar_of_not_mem _ hbhead]
          have h2p : blk.path = relStr fe'.rel := by
            rw [hblkeq]
            simp [mkBlock, replaceChar_of_not_mem _ (hbtail fe' hfe')]
          rw [← hq, h2p, h1p]
          exact hphead fe' hfe'

/-- How the loop can account for an input entry: included, individually
warned about, the stop trigger, or positioned after the stop trigger. -/
theorem bundleLoop_coverage (fs : FSNode) (maxF maxT : Int) :
    ∀ (l : List FileEntry) (t : Nat) (fe : FileEntry), fe ∈ l →
      (∃ raw, readFile fs fe.path = some raw ∧
        mkBlock fe raw ∈ (bundleLoop fs maxF maxT l t).blocks) ∨
      Warning.readError (pathStr fe.path) ∈
        (bundleLoop fs maxF maxT l t).warnings ∨
      (∃ n, Warning.tooBig (relStr fe.rel) n maxF ∈
        (bundleLoop fs maxF maxT l t).warnings) ∨
      Warning.stopped (relStr fe.rel) maxT ∈
        (bundleLoop fs maxF maxT l t).warnings ∨
      (∃ l1 g l2, l = l1 ++ g :: l2 ∧
        Warning.stopped (relStr g.rel) maxT ∈
          (bundleLoop fs maxF maxT l t).warnings ∧ fe ∈ l2) := by
  intro l
  induction l with
  | nil => intro t fe h; simp at h
  | cons a rest ih =>
    intro t fe hmem
    simp only [bundleLoop]
    cases hr : readFile fs a.path with
    | none =>
      rcases List.mem_cons.mp hmem with heq | htail
      · subst heq
        exact Or.inr (Or.inl (by simp [hr]))
      · rcases ih t fe htail with ⟨raw, hrw, hblk⟩ | hw | ⟨n, hw⟩ | hw |
          ⟨l1, g, l2, hsplit, hw, hfe2⟩
        · exact Or.inl ⟨raw, hrw, by simpa using hblk⟩
        · exact Or.inr (Or.inl (by simp [hw]))
        · exact Or.inr (Or.inr (Or.inl ⟨n, by simp [hw]⟩))
        · exact Or.inr (Or.inr (Or.inr (Or.inl (by simp [hw]))))
        · exact Or.inr (Or.inr (Or.inr (Or.inr
            ⟨a :: l1, g, l2, by simp [hsplit], by simp [hw], hfe2⟩)))
    | some raw =>
      by_cases h1 : maxF > 0 ∧ (raw.length : Int) > maxF
      · rcases List.mem_cons.mp hmem with heq | htail
        · subst heq
          exact Or.inr (Or.inr (Or.inl ⟨raw.length, by simp [h1]⟩))
        · rcases ih t fe htail with ⟨raw', hrw, hblk⟩ | hw | ⟨n, hw⟩ | hw |
            ⟨l1, g, l2, hsplit, hw, hfe2⟩
          · exact Or.inl ⟨raw', hrw, by simpa [h1] using hblk⟩
          · exact Or.inr (Or.inl (by simp [h1, hw]))
          · exact Or.inr (Or.inr (Or.inl ⟨n, by simp [h1, hw]⟩))
          · exact Or.inr (Or.inr (Or.inr (Or.inl (by simp [h1, hw]))))
          · exact Or.inr (Or.inr (Or.inr (Or.inr
              ⟨a :: l1, g, l2, by simp [hsplit], by simp [h1, hw], hfe2⟩)))
      · by_cases h2 : maxT > 0 ∧ (t : Int) + raw.length > maxT
        · rcases List.mem_cons.mp hmem with heq | htail
          · subst heq
            exact Or.inr (Or.inr (Or.inr (Or.inl (by simp [h1, h2]))))
          · exact Or.inr (Or.inr (Or.inr (Or.inr
              ⟨[], a, rest, rfl, by simp [h1, h2], htail⟩)))
        · rcases List.mem_cons.mp hmem with heq | htail
          · subst heq
            exact Or.inl ⟨raw, hr, by simp [h1, h2]⟩
          · rcases ih (t + raw.length) fe htail with ⟨raw', hrw, hblk⟩ | hw |
              ⟨n, hw⟩ | hw | ⟨l1, g, l2, hsplit, hw, hfe2⟩
            · exact Or.inl ⟨raw', hrw, by simp [h1, h2, hblk]⟩
            · exact Or.inr (Or.inl (by simp [h1, h2, hw]))
            · exact Or.inr (Or.inr (Or.inl ⟨n, by simp [h1, h2, hw]⟩))
            · exact Or.inr (Or.inr (Or.inr (Or.inl (by simp [h1, h2, hw]))))
            · exact Or.inr (Or.inr (Or.inr (Or.inr
                ⟨a :: l1, g, l2, by simp [hsplit], by simp [h1, h2, hw], hfe2⟩)))

/-! ## Concrete fixtures -/

/-- A small readable filesystem: two text files, one with a CRLF and no
trailing newline. -/
def fsW : FSNode :=
  .dir (.cons "A.txt".data (.file true [104, 13, 10])
    (.cons "b.md".data (.file true [106]) .nil))

/-- The candidate for `A.txt`. -/
def feA : FileEntry := FileEntry.mk [] ["A.txt".data] ["A.txt".data] 3

/-- The candidate for `b.md`. -/
def feB : FileEntry := FileEntry.mk [] ["b.md".data] ["b.md".data] 1

/-- The candidate list of `fsW`. -/
def entsW : List FileEntry := [feA, feB]

/-! ## C1 -/

/-- C1: for every candidate list and configuration, the reported
`totalBytes` (the value `renderPreamble` prints) is the sum of the raw
byte lengths (`Block.size`) of the included files; when
`max_total_bytes > 0` it never exceeds that budget; and when
`max_total_bytes ≤ 0` no total-budget stop is ever applied. -/
theorem claim1_total_budget (fs : FSNode) (es : List FileEntry)
    (maxF maxT : Int) :
    (bundle fs es maxF maxT).totalBytes =
      ((bundle fs es maxF maxT).blocks.map Block.size).sum ∧
    (0 < maxT → ((bundle fs es maxF maxT).totalBytes : Int) ≤ maxT) ∧
    (maxT ≤ 0 → ∀ (r : Str) (lim : Int),
      Warning.stopped r lim ∉ (bundle fs es maxF maxT).warnings) := by
  refine ⟨?_, ?_, ?_⟩
  · simpa [bundle] using bundleLoop_total_eq fs maxF maxT (sortEntries es) 0
  · intro hT
    simpa [bundle] using
      bundleLoop_total_le fs maxF maxT hT (sortEntries es) 0 (by omega)
  · intro hT r lim
    simpa [bundle] using bundleLoop_no_stop fs maxF maxT hT (sortEntries es) 0 r lim

/-- Witness for C1 at a concrete bundle (budget 5, then unbounded). -/
theorem claim1_total_budget_witness :
    ((bundle fsW entsW 0 5).totalBytes : Int) ≤ 5 ∧
    (∀ (r : Str) (lim : Int),
      Warning.stopped r lim ∉ (bundle fsW entsW 0 (-1)).warnings) :=
  ⟨(claim1_total_budget fsW entsW 0 5).2.1 (by decide),
   (claim1_total_budget fsW entsW 0 (-1)).2.2 (by decide)⟩

/-! ## C2 -/

/-- Fixture for the C2 counterexample: a 20-byte and an 8-byte file. -/
def fsC2 : FSNode :=
  .dir (.cons "big.txt".data (.file true (List.replicate 20 104))
    (.cons "small.txt".data (.file true (List.replicate 8 104)) .nil))

/-- The candidate for `big.txt`. -/
def feBig : FileEntry := FileEntry.mk [] ["big.txt".data] ["big.txt".data] 20

/-- The candidate for `small.txt`. -/
def feSmall : FileEntry :=
  FileEntry.mk [] ["small.txt".data] ["small.txt".data] 8

/-- The candidate list of `fsC2`. -/
def entsC2 : List FileEntry := [feBig, feSmall]

/-- C2 fails as stated: with `max_file_bytes = 10` and
`max_total_bytes = 15`, the first candidate in sorted order (`big.txt`,
20 raw bytes) satisfies `0 + 20 > 15`, so by the claim it should trigger
the hard stop and exclude every later candidate; but the code skips it at
the earlier per-file check (emitting a size warning, not a stop warning)
and still includes the later `small.txt`. -/
theorem claim2_counterexample :
    (sortEntries entsC2).map (fun fe => relStr fe.rel) =
      ["big.txt".data, "small.txt".data] ∧
    readFile fsC2 feBig.path = some (List.replicate 20 104) ∧
    ((0 : Int) + (List.replicate 20 104 : Bytes).length > 15) ∧
    (bundle fsC2 entsC2 10 15).blocks.map Block.path = ["small.txt".data] ∧
    (bundle fsC2 entsC2 10 15).warnings =
      [.tooBig "big.txt".data 20 10] := by
  decide

/-- C2 (amended): the hard stop applies to the first candidate that
passes the read and per-file checks and whose raw length added to the
running total exceeds the positive total budget: it produces exactly one
warning naming that candidate, and neither it nor any later candidate
(`rest` is arbitrary) contributes a block. -/
theorem claim2_budget_stop (fs : FSNode) (maxF maxT : Int) (g : FileEntry)
    (rest : List FileEntry) (total : Nat) (raw : Bytes)
    (hr : readFile fs g.path = some raw)
    (hf : ¬(maxF > 0 ∧ (raw.length : Int) > maxF))
    (hT : 0 < maxT) (hover : (total : Int) + raw.length > maxT) :
    bundleLoop fs maxF maxT (g :: rest) total =
      BundleAcc.mk [] [.stopped (relStr g.rel) maxT] total 0 := by
  have h2 : maxT > 0 ∧ (total : Int) + raw.length > maxT := ⟨hT, hover⟩
  simp [bundleLoop, hr, hf, h2]

/-- Witness for the amended C2: a concrete triggering candidate halts the
loop over an arbitrary remainder. -/
theorem claim2_budget_stop_witness :
    bundleLoop fsW 0 15 (feA :: [feB]) 13 =
      BundleAcc.mk [] [.stopped "A.txt".data 15] 13 0 :=
  claim2_budget_stop fsW 0 15 feA [feB] 13 [104, 13, 10] (by decide)
    (by decide) (by decide) (by decide)

/-! ## C3 -/

/-- Fixture for the C3 counterexample: three small text files and one
binary file (`z.py` has a NUL in its first bytes). -/
def fsC3 : FSNode :=
  .dir (.cons "a.py".data (.file true [104])
    (.cons "b.py".data (.file true (List.replicate 20 104))
      (.cons "c.py".data (.file true [105])
        (.cons "z.py".data (.file true [0, 1, 2]) .nil))))

/-- C3 fails as stated: in this run, `z.py` is on disk, readable,
non-hidden and matched by no pattern, but the classifier rejects it
(NUL byte) and it is dropped with no warning; and `c.py` is dropped by
post-budget truncation (the stop triggered at `b.py`) also with no
warning naming it — the only warning names `b.py`. -/
theorem claim3_counterexample :
    (walk_inputs "/cwd".data fsC3 [[]] [] false).map (fun fe => relStr fe.rel) =
      ["a.py".data, "b.py".data, "c.py".data] ∧
    readFile fsC3 ["z.py".data] = some [0, 1, 2] ∧
    is_text_file (readFile fsC3 ["z.py".data]) 1024 = false ∧
    (pipeline "/cwd".data fsC3 [[]] [] false none 0 5).blocks.map Block.path =
      ["a.py".data] ∧
    (pipeline "/cwd".data fsC3 [[]] [] false none 0 5).warnings =
      [.stopped "b.py".data 5] := by
  decide

/-- C3 (amended): every candidate handed to the bundler is either
included, or warned about by name (read error, per-file size, or as the
budget-stop trigger), or sits after the budget-stop trigger in sorted
order (such candidates, like classifier/extension/hidden/pattern drops in
the earlier stages, are silent by design). -/
theorem claim3_warning_coverage (fs : FSNode) (es : List FileEntry)
    (maxF maxT : Int) (fe : FileEntry) (hfe : fe ∈ es) :
    (∃ raw, readFile fs fe.path = some raw ∧
      mkBlock fe raw ∈ (bundle fs es maxF maxT).blocks) ∨
    Warning.readError (pathStr fe.path) ∈ (bundle fs es maxF maxT).warnings ∨
    (∃ n, Warning.tooBig (relStr fe.rel) n maxF ∈
      (bundle fs es maxF maxT).warnings) ∨
    Warning.stopped (relStr fe.rel) maxT ∈ (bundle fs es maxF maxT).warnings ∨
    (∃ l1 g l2, sortEntries es = l1 ++ g :: l2 ∧
      Warning.stopped (relStr g.rel) maxT ∈ (bundle fs es maxF maxT).warnings ∧
      fe ∈ l2) := by
  have hmem : fe ∈ sortEntries es :=
    ((List.perm_insertionSort entRel es).mem_iff).mpr hfe
  simpa [bundle] using
    bundleLoop_coverage fs maxF maxT (sortEntries es) 0 fe hmem

/-- Witness for the amended C3 at a concrete included candidate. -/
theorem claim3_warning_coverage_witness :
    (∃ raw, readFile fsW feA.path = some raw ∧
      mkBlock feA raw ∈ (bundle fsW entsW 0 5).blocks) ∨
    Warning.readError (pathStr feA.path) ∈ (bundle fsW entsW 0 5).warnings ∨
    (∃ n, Warning.tooBig (relStr feA.rel) n 0 ∈
      (bundle fsW entsW 0 5).warnings) ∨
    Warning.stopped (relStr feA.rel) 5 ∈ (bundle fsW entsW 0 5).warnings ∨
    (∃ l1 g l2, sortEntries entsW = l1 ++ g :: l2 ∧
      Warning.stopped (relStr g.rel) 5 ∈ (bundle fsW entsW 0 5).warnings ∧
      feA ∈ l2) :=
  claim3_warning_coverage fsW entsW 0 5 feA (by decide)

/-! ## C4 -/

/-- C4: the emitted blocks' relative-path strings are in ascending
case-insensitive lexicographic order — the bundler sorts all candidates
by `str(rel).lower()` before processing, and inclusion preserves that
order.  (The hypothesis pins down the POSIX regime in which relative
paths contain no backslash, so the header's `\\`→`/` rewrite is the
identity.) -/
theorem claim4_sorted_output (fs : FSNode) (es : List FileEntry)
    (maxF maxT : Int) (hbs : ∀ fe ∈ es, ('\\' : Char) ∉ relStr fe.rel) :
    ((bundle fs es maxF maxT).blocks.map Block.path).Pairwise pathOrd := by
  have hsorted : (sortEntries es).Pairwise entRel :=
    List.sorted_insertionSort entRel es
  have hbs' : ∀ fe ∈ sortEntries es, ('\\' : Char) ∉ relStr fe.rel :=
    fun fe h => hbs fe (((List.perm_insertionSort entRel es).mem_iff).mp h)
  simpa [bundle] using
    bundleLoop_pairwise fs maxF maxT (sortEntries es) 0 hsorted hbs'

/-- Witness for C4 on a concrete mixed-case candidate set. -/
theorem claim4_sorted_output_witness :
    ((bundle fsW entsW 0 0).blocks.map Block.path).Pairwise pathOrd :=
  claim4_sorted_output fsW entsW 0 0 (by decide)

/-! ## C5 -/

/-- C5: every emitted block comes from some candidate whose raw disk
bytes `raw` satisfy: the header's `sha256` field is the digest of `raw`
(computed before decoding/normalisation) and the `size` field is the raw
byte length — neither is affected by the body normalisation. -/
theorem claim5_digest_raw (fs : FSNode) (es : List FileEntry)
    (maxF maxT : Int) (blk : Block)
    (h : blk ∈ (bundle fs es maxF maxT).blocks) :
    ∃ fe ∈ es, ∃ raw, readFile fs fe.path = some raw ∧
      blk.sha256 = sha256_bytes raw ∧ blk.size = raw.length := by
  have h' : blk ∈ (bundleLoop fs maxF maxT (sortEntries es) 0).blocks := by
    simpa [bundle] using h
  obtain ⟨fe, hfe, raw, hr, hblk⟩ :=
    bundleLoop_blocks_src fs maxF maxT (sortEntries es) 0 blk h'
  exact ⟨fe, ((List.perm_insertionSort entRel es).mem_iff).mp hfe, raw, hr,
    by simp [hblk, mkBlock], by simp [hblk, mkBlock]⟩

set_option maxRecDepth 100000 in
/-- Witness for C5 at a concrete block of a concrete bundle. -/
theorem claim5_digest_raw_witness :
    ∃ fe ∈ entsW, ∃ raw, readFile fsW fe.path = some raw ∧
      (mkBlock feA [104, 13, 10]).sha256 = sha256_bytes raw ∧
      (mkBlock feA [104, 13, 10]).size = raw.length :=
  claim5_digest_raw fsW entsW 0 0 (mkBlock feA [104, 13, 10]) (by decide)

/-! ## C6 -/

/-- C6: every emitted block's body is the raw bytes decoded by the total
UTF-8-with-replacement decoder and then newline-normalised; the
normalised text contains no carriage return (every CRLF and every bare CR
became LF); and the body as emitted between the fences always ends with a
newline, even when the text does not. -/
theorem claim6_body (fs : FSNode) (es : List FileEntry) (maxF maxT : Int)
    (blk : Block) (h : blk ∈ (bundle fs es maxF maxT).blocks) :
    (∃ fe ∈ es, ∃ raw, readFile fs fe.path = some raw ∧
      blk.text = normalise_newlines (utf8Decode raw)) ∧
    (∀ s : Str, '\r' ∉ normalise_newlines s) ∧
    strEndsWith (emittedBody blk.text) ['\n'] = true := by
  have h' : blk ∈ (bundleLoop fs maxF maxT (sortEntries es) 0).blocks := by
    simpa [bundle] using h
  obtain ⟨fe, hfe, raw, hr, hblk⟩ :=
    bundleLoop_blocks_src fs maxF maxT (sortEntries es) 0 blk h'
  refine ⟨⟨fe, ((List.perm_insertionSort entRel es).mem_iff).mp hfe, raw, hr,
    by simp [hblk, mkBlock]⟩, cr_not_mem_normalise, emittedBody_endsWith _⟩

set_option maxRecDepth 100000 in
/-- Witness for C6 at a concrete block whose source bytes contain a CRLF
and do not end with a newline. -/
theorem claim6_body_witness :
    (∃ fe ∈ entsW, ∃ raw, readFile fsW fe.path = some raw ∧
      (mkBlock feB [106]).text = normalise_newlines (utf8Decode raw)) ∧
    (∀ s : Str, '\r' ∉ normalise_newlines s) ∧
    strEndsWith (emittedBody (mkBlock feB [106]).text) ['\n'] = true :=
  claim6_body fsW entsW 0 0 (mkBlock feB [106]) (by decide)

/-! ## C7 -/

/-- C7: the classifier is total (it is a function — no exception can
propagate), returns `false` exactly when the file could not be
opened/read or a NUL byte occurs in the at-most-`sample_size`-byte
sample, and reads at most the sample: its verdict on a readable file
depends only on the first `sample_size` bytes. -/
theorem claim7_classifier :
    (∀ (chunk : Option Bytes) (n : Nat),
      is_text_file chunk n = false ↔
        chunk = none ∨ ∃ c, chunk = some c ∧ 0 ∈ c.take n) ∧
    (∀ (c : Bytes) (n : Nat),
      is_text_file (some c) n = is_text_file (some (c.take n)) n) := by
  constructor
  · intro chunk n
    cases chunk with
    | none => simp [is_text_file]
    | some c => simp [is_text_file]
  · intro c n
    simp [is_text_file, List.take_take]

/-! ## C8 -/

/-- C8: exclusion matching is invariant under permutation of the pattern
list, and the combined name/full-path test is a logical OR over all
pattern evaluations against both representations. -/
theorem claim8_matcher (cwd nm fp : Str) (pats pats' : List Str)
    (hperm : pats.Perm pats') :
    matches_any cwd nm pats = matches_any cwd nm pats' ∧
    ((matches_any cwd nm pats || matches_any cwd fp pats) = true ↔
      ∃ pat ∈ pats,
        matchOne cwd nm pat = true ∨ matchOne cwd fp pat = true) := by
  constructor
  · have hiff : matches_any cwd nm pats = true ↔
        matches_any cwd nm pats' = true := by
      simp only [matches_any, List.any_eq_true]
      exact ⟨fun ⟨p, hp, hm⟩ => ⟨p, hperm.mem_iff.mp hp, hm⟩,
        fun ⟨p, hp, hm⟩ => ⟨p, hperm.mem_iff.mpr hp, hm⟩⟩
    cases h1 : matches_any cwd nm pats <;> cases h2 : matches_any cwd nm pats' <;>
      simp_all
  · simp only [matches_any, Bool.or_eq_true, List.any_eq_true]
    constructor
    · rintro (⟨p, hp, hm⟩ | ⟨p, hp, hm⟩)
      · exact ⟨p, hp, Or.inl hm⟩
      · exact ⟨p, hp, Or.inr hm⟩
    · rintro ⟨p, hp, hm | hm⟩
      · exact Or.inl ⟨p, hp, hm⟩
      · exact Or.inr ⟨p, hp, hm⟩

/-- Witness for C8 on a two-pattern list and its transposition. -/
theorem claim8_matcher_witness :
    matches_any "/c".data "x".data ["/a".data, "/b".data] =
      matches_any "/c".data "x".data ["/b".data, "/a".data] ∧
    ((matches_any "/c".data "x".data ["/a".data, "/b".data] ||
        matches_any "/c".data "/full/x".data ["/a".data, "/b".data]) = true ↔
      ∃ pat ∈ ["/a".data, "/b".data],
        matchOne "/c".data "x".data pat = true ∨
          matchOne "/c".data "/full/x".data pat = true) :=
  claim8_matcher "/c".data "x".data "/full/x".data
    ["/a".data, "/b".data] ["/b".data, "/a".data]
    (List.Perm.swap "/b".data "/a".data [])

/-! ## C9 -/

/-- C9: both budget comparisons are strict.  A candidate whose raw length
exactly equals the positive per-file budget, and whose inclusion brings
the running total exactly to the positive total budget, is included (its
block is emitted at the head of the remaining output), not skipped or
stopped. -/
theorem claim9_strict_boundaries (fs : FSNode) (maxF maxT : Int)
    (g : FileEntry) (rest : List FileEntry) (total : Nat) (raw : Bytes)
    (hr : readFile fs g.path = some raw)
    (hF : 0 < maxF) (hlen : (raw.length : Int) = maxF)
    (hT : 0 < maxT) (htot : (total : Int) + raw.length = maxT) :
    (bundleLoop fs maxF maxT (g :: rest) total).blocks.head? =
      some (mkBlock g raw) := by
  have h1 : ¬(maxF > 0 ∧ (raw.length : Int) > maxF) := by omega
  have h2 : ¬(maxT > 0 ∧ (total : Int) + raw.length > maxT) := by omega
  simp [bundleLoop, hr, h1, h2]

/-- Witness for C9: a 3-byte file with `max_file_bytes = 3` and
`max_total_bytes = 13` reached exactly from a running total of 10. -/
theorem claim9_strict_boundaries_witness :
    (bundleLoop fsW 3 13 (feA :: [feB]) 10).blocks.head? =
      some (mkBlock feA [104, 13, 10]) :=
  claim9_strict_boundaries fsW 3 13 feA [feB] 10 [104, 13, 10]
    (by decide) (by decide) (by decide) (by decide) (by decide)

/-! ## C10 -/

/-- C10: hidden/exclusion handling is asymmetric at the input boundary.
(1) A regular-file input is skipped (when hidden files are excluded) as
soon as any segment of its resolved path after the filesystem root starts
with a dot.  (2) A directory input is always walked, with no check of its
own name against the hidden rule or the patterns.  (3) By contrast, a
subdirectory of a walked directory that satisfies the pruning condition
contributes nothing: the checks apply only to entries strictly below the
input directory. -/
theorem claim10_walk_asymmetry (cwd : Str) (fs : FSNode) (pats : List Str) :
    (∀ (p : List Str) (rd : Bool) (c : Bytes),
      resolve fs p = some (.file rd c) →
      p.any (fun part => startsWithDot part) = true →
      walk_inputs cwd fs [p] pats false = []) ∧
    (∀ (p : List Str) (es : FSEntries) (hidden : Bool),
      resolve fs p = some (.dir es) →
      walk_inputs cwd fs [p] pats hidden =
        walkNode cwd pats hidden p p (.dir es)) ∧
    (∀ (root cur : List Str) (hidden : Bool) (d : Str)
        (sub rest : FSEntries),
      pruneDir cwd pats hidden cur d = true →
      walkDirs cwd pats hidden root cur (.cons d (.dir sub) rest) =
        walkDirs cwd pats hidden root cur rest) := by
  refine ⟨?_, ?_, ?_⟩
  · intro p rd c hres hdot
    simp only [walk_inputs, List.flatMap_cons, List.flatMap_nil, hres]
    simp
    intro hall _ _
    obtain ⟨x, hx, hsx⟩ := List.any_eq_true.mp hdot
    exact absurd (hall x hx) (by simp [hsx])
  · intro p es hidden hres
    simp [walk_inputs, hres]
  · intro root cur hidden d sub rest hprune
    simp [walkDirs, hprune]

/-- The listing of the hidden directory in the C10 fixture. -/
def innerEntries : FSEntries := .cons "x.txt".data (.file true [104]) .nil

/-- C10 fixture: a dot-named directory containing a text file, and a
dot-named regular file. -/
def fsH : FSNode :=
  .dir (.cons ".hid".data (.dir innerEntries)
    (.cons ".f.txt".data (.file true [104]) .nil))

/-- Witness for C10: the dot-named file input is skipped; the dot-named
directory input is walked (and actually yields its inner file); the same
dot-named directory is pruned when met as a subdirectory. -/
theorem claim10_walk_asymmetry_witness :
    walk_inputs "/c".data fsH [[".f.txt".data]] [] false = [] ∧
    walk_inputs "/c".data fsH [[".hid".data]] [] false =
      walkNode "/c".data [] false [".hid".data] [".hid".data]
        (.dir innerEntries) ∧
    walkDirs "/c".data [] false [] [] (.cons ".hid".data (.dir innerEntries)
        (.cons ".f.txt".data (.file true [104]) .nil)) =
      walkDirs "/c".data [] false [] []
        (.cons ".f.txt".data (.file true [104]) .nil) :=
  ⟨(claim10_walk_asymmetry "/c".data fsH []).1 [".f.txt".data] true [104]
      rfl (by decide),
   (claim10_walk_asymmetry "/c".data fsH []).2.1 [".hid".data] innerEntries
      false rfl,
   (claim10_walk_asymmetry "/c".data fsH []).2.2 [] [] false ".hid".data
      innerEntries (.cons ".f.txt".data (.file true [104]) .nil) (by decide)⟩
